import Mathlib

/-!
# Verification of the `charts_generator.py` reporting core (church-assistant)

Shallow embedding of the data pipeline of `src/charts_generator.py`:
filename date parsing, single-report ingestion, corpus aggregation,
hierarchical region resolution, time-series construction, the recency
window selectors and the personal-record filter, and the RAG context
cache update.

Conventions of the embedding:
* An Excel cell is `Cell`: `Cell.num n` stands for any cell value that
  `pd.to_numeric` turns into the number `n` (a number, or a numeric
  string), `Cell.str s` for a non-numeric string, `Cell.empty` for a
  missing value (`NaN`).  Fractional values do not occur in attendance
  data, so cell numbers are carried as integers.
* A file on disk is `RawFile`: its path plus the table `pd.read_excel`
  would return, `none` when reading raises.
* Python exceptions that a function propagates are modelled with
  `Except`; exceptions that are caught and turned into a skip are
  modelled with `Option`.
* `re.search(r"(\d{4})-(\d{1,2})-(\d{1,2})", ...)` is modelled
  character by character (leftmost position, greedy quantifiers with
  backtracking); `\d` is modelled by the ASCII digits that occur in the
  report file names.
* `pandas` sorts are modelled by `List.insertionSort` over the same
  sort key; the source never depends on the order of key-equal rows.
-/

namespace ChartsGenerator

/-- A calendar date as parsed from a filename: year, month, day. -/
structure Date where
  y : Nat
  m : Nat
  d : Nat
deriving DecidableEq, Repr

/-- Chronological sort key of a date (`datetime` comparison). -/
def Date.key (dt : Date) : Nat := dt.y * 10000 + dt.m * 100 + dt.d

/-- An Excel cell as `pandas` sees it: a numeric value, a non-numeric
string, or a missing value (`NaN`). -/
inductive Cell where
  | num (n : Int)
  | str (s : String)
  | empty
deriving DecidableEq, Repr

/-- Python `pat in s` on character lists: `hasPrefixC pat s` is true when
`pat` is a prefix of `s`. -/
def hasPrefixC : List Char → List Char → Bool
  | [], _ => true
  | _ :: _, [] => false
  | p :: ps, c :: cs => p = c && hasPrefixC ps cs

/-- Python substring containment `pat in s` on character lists. -/
def containsSub (pat : List Char) : List Char → Bool
  | [] => pat.isEmpty
  | c :: cs => hasPrefixC pat (c :: cs) || containsSub pat cs

/-- `_is_summary_text`: a cell counts as an aggregate ("total") marker
when it is a string containing `總計` or `合計`. -/
def _is_summary_text (c : Cell) : Bool :=
  match c with
  | .str s => containsSub "總計".data s.data || containsSub "合計".data s.data
  | _ => false

/-! ## Filename date parsing (`parse_week_end_date_from_filename`) -/

/-- `os.path.basename`: the part of the path after the last `/`. -/
def basename (s : List Char) : List Char :=
  s.foldl (fun acc c => if c = '/' then [] else acc ++ [c]) []

/-- Decimal value of an ASCII digit character. -/
def digVal (c : Char) : Nat := c.toNat - 48

/-- Greedy match of `(\d{1,2})-` at the start of `cs` (the month part of
the date regex): two digits followed by a hyphen if possible, otherwise
one digit followed by a hyphen.  Returns the value and the rest after
the hyphen. -/
def matchNumDash (cs : List Char) : Option (Nat × List Char) :=
  match cs with
  | a :: b :: c :: rest =>
    if a.isDigit then
      if b.isDigit then
        if c = '-' then some (digVal a * 10 + digVal b, rest) else none
      else if b = '-' then some (digVal a, c :: rest) else none
    else none
  | [a, b] => if a.isDigit && b = '-' then some (digVal a, []) else none
  | _ => none

/-- Greedy match of a final `(\d{1,2})` at the start of `cs` (the day
part of the date regex): two digits if possible, otherwise one. -/
def matchDay (cs : List Char) : Option Nat :=
  match cs with
  | a :: b :: _ =>
    if a.isDigit then
      if b.isDigit then some (digVal a * 10 + digVal b) else some (digVal a)
    else none
  | [a] => if a.isDigit then some (digVal a) else none
  | _ => none

/-- Match of `(\d{4})-(\d{1,2})-(\d{1,2})` anchored at the start of
`cs`, with the greedy/backtracking semantics of `re`: exactly four
digits, a hyphen, one or two digits, a hyphen, one or two digits.
Returns `(year, month, day)` as written. -/
def matchDateHere (cs : List Char) : Option (Nat × Nat × Nat) :=
  match cs with
  | c1 :: c2 :: c3 :: c4 :: c5 :: rest =>
    if c1.isDigit && c2.isDigit && c3.isDigit && c4.isDigit && c5 = '-' then
      match matchNumDash rest with
      | some (mo, rest2) =>
        match matchDay rest2 with
        | some dy =>
          some (((digVal c1 * 10 + digVal c2) * 10 + digVal c3) * 10 + digVal c4, mo, dy)
        | none => none
      | none => none
    else none
  | _ => none

/-- `re.search` of the date pattern: leftmost position at which the
anchored match succeeds. -/
def searchDate : List Char → Option (Nat × Nat × Nat)
  | [] => none
  | c :: rest =>
    match matchDateHere (c :: rest) with
    | some r => some r
    | none => searchDate rest

/-- Gregorian leap-year rule used by `datetime`. -/
def isLeapYear (y : Nat) : Bool := y % 4 = 0 && (y % 100 ≠ 0 || y % 400 = 0)

/-- Number of days of month `mo` in year `y` (`datetime` calendar). -/
def daysInMonth (y mo : Nat) : Nat :=
  if mo = 2 then (if isLeapYear y then 29 else 28)
  else if mo = 4 ∨ mo = 6 ∨ mo = 9 ∨ mo = 11 then 30
  else 31

/-- `datetime.strptime(s, "%Y-%m-%d")` on the matched text: succeeds
exactly for a valid calendar date with year at least 1 (`ValueError`
otherwise, modelled by `none`). -/
def mkValidDate (y mo dy : Nat) : Option Date :=
  if 1 ≤ y ∧ 1 ≤ mo ∧ mo ≤ 12 ∧ 1 ≤ dy ∧ dy ≤ daysInMonth y mo then
    some ⟨y, mo, dy⟩
  else none

/-- `parse_week_end_date_from_filename`: extract a `YYYY-M-D`-shaped
substring from the basename of the path and validate it as a calendar
date; `none` when no match exists or the matched text is not a valid
date. -/
def parse_week_end_date_from_filename (filename : String) : Option Date :=
  match searchDate (basename filename.data) with
  | some (y, mo, dy) => mkValidDate y mo dy
  | none => none

/-! ## Tables, files, single-report ingestion -/

/-- The table `pd.read_excel` returns: header names and rows of cells
(positional, aligned with the headers). -/
structure RawTable where
  headers : List String
  rows : List (List Cell)
deriving DecidableEq, Repr

/-- A file on disk: its path and the table reading it would produce
(`none` when `pd.read_excel` raises). -/
structure RawFile where
  path : String
  content : Option RawTable
deriving DecidableEq, Repr

/-- `df[name]` cell access for one row: the cell in the position of
header `name` (missing positions read as `NaN`). -/
def getCol (headers : List String) (row : List Cell) (name : String) : Cell :=
  match headers.indexOf? name with
  | some i => row.getD i .empty
  | none => .empty

/-- Python `str.strip()`: drop whitespace from both ends. -/
def pyStrip (s : String) : String :=
  ⟨((s.data.dropWhile Char.isWhitespace).reverse.dropWhile Char.isWhitespace).reverse⟩

/-- `_clean_table_headers`: strip whitespace from every header. -/
def _clean_table_headers (headers : List String) : List String :=
  headers.map pyStrip

/-- `pd.to_numeric(c, errors="coerce").fillna(0)`: numeric cells keep
their value, non-numeric and missing cells become 0. -/
def coerceNumeric (c : Cell) : Int :=
  match c with
  | .num n => n
  | _ => 0

/-- The fixed metric columns (`NUMERIC_COLUMNS_CANDIDATES`). -/
inductive Metric where
  | sunday | prayer | homeVisitOut | homeVisitIn | smallGroup | morningRevival | gospelVisit
deriving DecidableEq, Repr

/-- The header name of each metric column. -/
def Metric.colName : Metric → String
  | .sunday => "主日"
  | .prayer => "禱告"
  | .homeVisitOut => "家出訪"
  | .homeVisitIn => "家受訪"
  | .smallGroup => "小排"
  | .morningRevival => "晨興"
  | .gospelVisit => "福出訪"

/-- `NUMERIC_COLUMNS_CANDIDATES` in source order. -/
def NUMERIC_COLUMNS_CANDIDATES : List Metric :=
  [.sunday, .prayer, .homeVisitOut, .homeVisitIn, .smallGroup, .morningRevival, .gospelVisit]

/-- Which metric columns a normalized table carries. -/
structure ColSet where
  sunday : Bool
  prayer : Bool
  homeVisitOut : Bool
  homeVisitIn : Bool
  smallGroup : Bool
  morningRevival : Bool
  gospelVisit : Bool
deriving DecidableEq, Repr

/-- Column-presence lookup. -/
def ColSet.has (cs : ColSet) : Metric → Bool
  | .sunday => cs.sunday
  | .prayer => cs.prayer
  | .homeVisitOut => cs.homeVisitOut
  | .homeVisitIn => cs.homeVisitIn
  | .smallGroup => cs.smallGroup
  | .morningRevival => cs.morningRevival
  | .gospelVisit => cs.gospelVisit

/-- The metric columns present among `headers`
(`col in dataframe.columns` for each candidate). -/
def mkColSet (headers : List String) : ColSet where
  sunday := headers.contains "主日"
  prayer := headers.contains "禱告"
  homeVisitOut := headers.contains "家出訪"
  homeVisitIn := headers.contains "家受訪"
  smallGroup := headers.contains "小排"
  morningRevival := headers.contains "晨興"
  gospelVisit := headers.contains "福出訪"

/-- Union of column sets (`pd.concat` takes the union of columns). -/
def ColSet.union (a b : ColSet) : ColSet where
  sunday := a.sunday || b.sunday
  prayer := a.prayer || b.prayer
  homeVisitOut := a.homeVisitOut || b.homeVisitOut
  homeVisitIn := a.homeVisitIn || b.homeVisitIn
  smallGroup := a.smallGroup || b.smallGroup
  morningRevival := a.morningRevival || b.morningRevival
  gospelVisit := a.gospelVisit || b.gospelVisit

/-- The empty column set. -/
def ColSet.none : ColSet := ⟨false, false, false, false, false, false, false⟩

/-- One row of a normalized summary table: the group label (`區別`), the
week-end date (`週末日`) and the coerced metric values.  A metric is
`none` when its column is absent from the originating file (after
`pd.concat` such entries read as `NaN`). -/
structure Row where
  group : Cell
  date : Date
  sunday : Option Int
  prayer : Option Int
  homeVisitOut : Option Int
  homeVisitIn : Option Int
  smallGroup : Option Int
  morningRevival : Option Int
  gospelVisit : Option Int
deriving DecidableEq, Repr

/-- Metric access on a normalized row. -/
def Row.metric (r : Row) : Metric → Option Int
  | .sunday => r.sunday
  | .prayer => r.prayer
  | .homeVisitOut => r.homeVisitOut
  | .homeVisitIn => r.homeVisitIn
  | .smallGroup => r.smallGroup
  | .morningRevival => r.morningRevival
  | .gospelVisit => r.gospelVisit

/-- The coerced value of metric column `name` for one raw row: present
columns are coerced numerically, absent columns are absent from the
normalized table. -/
def metricCell (headers : List String) (row : List Cell) (name : String) : Option Int :=
  if headers.contains name then some (coerceNumeric (getCol headers row name)) else Option.none

/-- Normalization of one raw row of a summary report. -/
def mkRow (headers : List String) (dt : Date) (row : List Cell) : Row where
  group := getCol headers row "區別"
  date := dt
  sunday := metricCell headers row "主日"
  prayer := metricCell headers row "禱告"
  homeVisitOut := metricCell headers row "家出訪"
  homeVisitIn := metricCell headers row "家受訪"
  smallGroup := metricCell headers row "小排"
  morningRevival := metricCell headers row "晨興"
  gospelVisit := metricCell headers row "福出訪"

/-- A normalized summary table: which metric columns it carries and its
rows. -/
structure Frame where
  cols : ColSet
  rows : List Row
deriving DecidableEq, Repr

/-- `read_single_report`: parse the date from the file name (skip when
impossible), read the table (skip when reading raises), strip headers,
require the `區別` column (skip when absent), coerce the metric columns
and tag every row with the parsed week-end date.  The returned table is
restricted to the group label, the date and the metric columns present
in the file. -/
def read_single_report (f : RawFile) : Option Frame :=
  match parse_week_end_date_from_filename f.path with
  | Option.none => Option.none
  | some dt =>
    match f.content with
    | Option.none => Option.none
    | some tbl =>
      let headers := _clean_table_headers tbl.headers
      if headers.contains "區別" then
        some { cols := mkColSet headers, rows := tbl.rows.map (mkRow headers dt) }
      else Option.none

/-! ## Corpus aggregation (`aggregate_reports`) -/

/-- `_remove_summary_rows`: drop the rows whose group label is an
aggregate ("total") marker. -/
def _remove_summary_rows (rows : List Row) : List Row :=
  rows.filter (fun r => !_is_summary_text r.group)

/-- Chronological order on rows (sort key `週末日`). -/
def rowDateLe (a b : Row) : Prop := a.date.key ≤ b.date.key

instance : DecidableRel rowDateLe := fun _ _ => Nat.decLe _ _

/-- `aggregate_reports`: read every file of the snapshot directory,
skipping unusable ones; raise (`RuntimeError`, modelled with
`Except.error`) when the directory holds no files at all or no file is
usable; concatenate the per-file tables, remove aggregate rows and sort
chronologically. -/
def aggregate_reports (files : List RawFile) : Except String Frame :=
  if files.isEmpty then .error "在資料夾中找不到報表檔案。"
  else
    let frames := files.filterMap read_single_report
    if frames.isEmpty then .error "沒有任何可用的報表資料。"
    else
      let cols := frames.foldl (fun acc fr => acc.union fr.cols) ColSet.none
      let rows := _remove_summary_rows (frames.map Frame.rows).flatten
      .ok { cols := cols, rows := rows.insertionSort rowDateLe }

/-! ## Region resolution and time series (`build_region_timeseries`) -/

/-- `REGION_MAPPING`: the static rollup configuration mapping each
cluster ("大區") name to its member group names. -/
def REGION_MAPPING : List (String × List String) :=
  [("高中大區", ["高中一區", "高中二區"]),
   ("青年大區", ["青年一區", "青年二區", "青年三區"]),
   ("國中大區", ["國中一區", "國中二區"])]

/-- `df["區別"] == name`: elementwise equality of a cell with a string
(`NaN` and numbers compare unequal to a string). -/
def cellEqStr (c : Cell) (s : String) : Bool :=
  match c with
  | .str t => t == s
  | _ => false

/-- `df["區別"].isin(names)` for one cell. -/
def cellIsin (c : Cell) (names : List String) : Bool :=
  names.any (cellEqStr c)

/-- The row selection of `build_region_timeseries` (source lines
322-334): the reserved `總計` sentinel keeps the whole corpus, a
cluster name keeps the rows of its member groups, any other name keeps
the rows whose group label equals it. -/
def resolveRegionRows (F : Frame) (region_name : String) : List Row :=
  if region_name = "總計" then F.rows
  else
    match REGION_MAPPING.lookup region_name with
    | some subdistricts => F.rows.filter (fun r => cellIsin r.group subdistricts)
    | Option.none => F.rows.filter (fun r => cellEqStr r.group region_name)

/-- One row of a built time series: the week-end date, the summed value
of each metric column the corpus carries, and the derived `總出訪`
(total visits) value. -/
structure TSRow where
  date : Date
  sunday : Option Int
  prayer : Option Int
  homeVisitOut : Option Int
  homeVisitIn : Option Int
  smallGroup : Option Int
  morningRevival : Option Int
  gospelVisit : Option Int
  totalVisits : Int
deriving DecidableEq, Repr

/-- Metric access on a time-series row. -/
def TSRow.metric (t : TSRow) : Metric → Option Int
  | .sunday => t.sunday
  | .prayer => t.prayer
  | .homeVisitOut => t.homeVisitOut
  | .homeVisitIn => t.homeVisitIn
  | .smallGroup => t.smallGroup
  | .morningRevival => t.morningRevival
  | .gospelVisit => t.gospelVisit

/-- `groupby("週末日")[cols].sum()` for one metric: the sum of the
metric over `rows`, `NaN` entries contributing 0 (`skipna`). -/
def sumMetric (rows : List Row) (m : Metric) : Int :=
  (rows.map (fun r => (r.metric m).getD 0)).sum

/-- The time-series row of week-end date `d` over the resolved rows:
per present metric column the sum over the rows of that date, plus the
derived total-visits value (`福出訪 + 家出訪`, absent columns counting
as 0). -/
def tsEntry (cols : ColSet) (rows : List Row) (d : Date) : TSRow :=
  let atD := rows.filter (fun r => r.date = d)
  { date := d
    sunday := if cols.sunday then some (sumMetric atD .sunday) else Option.none
    prayer := if cols.prayer then some (sumMetric atD .prayer) else Option.none
    homeVisitOut := if cols.homeVisitOut then some (sumMetric atD .homeVisitOut) else Option.none
    homeVisitIn := if cols.homeVisitIn then some (sumMetric atD .homeVisitIn) else Option.none
    smallGroup := if cols.smallGroup then some (sumMetric atD .smallGroup) else Option.none
    morningRevival := if cols.morningRevival then some (sumMetric atD .morningRevival) else Option.none
    gospelVisit := if cols.gospelVisit then some (sumMetric atD .gospelVisit) else Option.none
    totalVisits := (if cols.gospelVisit then sumMetric atD .gospelVisit else 0)
      + (if cols.homeVisitOut then sumMetric atD .homeVisitOut else 0) }

/-- Chronological order on dates. -/
def dateLe (a b : Date) : Prop := a.key ≤ b.key

instance : DecidableRel dateLe := fun _ _ => Nat.decLe _ _

/-- Reverse chronological order on dates. -/
def dateGe (a b : Date) : Prop := b.key ≤ a.key

instance : DecidableRel dateGe := fun _ _ => Nat.decLe _ _

/-- The distinct week-end dates of `rows`, ascending (`groupby` index
after `sort_index()`). -/
def distinctDatesAsc (rows : List Row) : List Date :=
  ((rows.map Row.date).dedup).insertionSort dateLe

/-- `build_region_timeseries`: resolve the requested name to a row
subset, return an empty series when nothing matches, otherwise group
the subset by week-end date (ascending) and sum each present metric
column, deriving `總出訪`. -/
def build_region_timeseries (F : Frame) (region_name : String) : List TSRow :=
  let region := resolveRegionRows F region_name
  if region.isEmpty then []
  else (distinctDatesAsc region).map (tsEntry F.cols region)

/-- `generate_region_charts`: build the series for the requested name;
an empty series is "nothing to render" (`none`), never an error. -/
def generate_region_charts (F : Frame) (region_name : String) : Option (List TSRow) :=
  let ts := build_region_timeseries F region_name
  if ts.isEmpty then Option.none else some ts

/-! ## Summary recency window (`_load_recent_summary_data`) -/

/-- `_load_recent_summary_data`: aggregate the summary corpus (any
`RuntimeError` becomes `None`), return `None` on an empty corpus, keep
the rows of the `weeks` most recent distinct week-end dates and sort
the result ascending by date. -/
def _load_recent_summary_data (files : List RawFile) (weeks : Nat) : Option (List Row) :=
  match aggregate_reports files with
  | .error _ => Option.none
  | .ok F =>
    if F.rows.isEmpty then Option.none
    else
      let uniqueDates := (F.rows.map Row.date).dedup
      let recent := (uniqueDates.insertionSort dateGe).take weeks
      some ((F.rows.filter (fun r => recent.contains r.date)).insertionSort rowDateLe)

/-! ## Personal-record filter (`_load_filtered_raw_personal_data`) -/

/-- The attendance flag columns of the personal path
(`ATTENDANCE_COLS`). -/
inductive ACol where
  | sunday | prayer | smallGroup | morningRevival
deriving DecidableEq, Repr

/-- Header name of each attendance flag column. -/
def ACol.colName : ACol → String
  | .sunday => "主日"
  | .prayer => "禱告"
  | .smallGroup => "小排"
  | .morningRevival => "晨興"

/-- `ATTENDANCE_COLS` in source order. -/
def ATTENDANCE_COLS : List ACol := [.sunday, .prayer, .smallGroup, .morningRevival]

/-- One row of the personal table: formatted date, name (`姓名`),
group label (`區別`) and the four coerced attendance flags (absent flag
columns are synthesized as 0). -/
structure PRow where
  date : Date
  name : Cell
  district : Cell
  sunday : Int
  prayer : Int
  smallGroup : Int
  morningRevival : Int
deriving DecidableEq, Repr

/-- Flag access on a personal row. -/
def PRow.flag (r : PRow) : ACol → Int
  | .sunday => r.sunday
  | .prayer => r.prayer
  | .smallGroup => r.smallGroup
  | .morningRevival => r.morningRevival

/-- The sum of the four attendance flags of one row. -/
def PRow.flagTotal (r : PRow) : Int :=
  r.sunday + r.prayer + r.smallGroup + r.morningRevival

/-- Coercion of a personal flag column: present columns go through
`pd.to_numeric(..., errors="coerce").fillna(0).astype(int)`, absent
columns are synthesized as the constant 0. -/
def pflag (headers : List String) (row : List Cell) (name : String) : Int :=
  if headers.contains name then coerceNumeric (getCol headers row name) else 0

/-- Reading one personal file inside the loader's per-file `try`:
`none` when reading raises, when the `姓名` column is absent, or when
selecting the unconditional `區別` column raises `KeyError`; otherwise
the normalized personal rows tagged with the file's date. -/
def readPersonalFile (dt : Date) (f : RawFile) : Option (List PRow) :=
  match f.content with
  | Option.none => Option.none
  | some tbl =>
    let headers := _clean_table_headers tbl.headers
    if headers.contains "姓名" then
      if headers.contains "區別" then
        some (tbl.rows.map (fun row =>
          { date := dt
            name := getCol headers row "姓名"
            district := getCol headers row "區別"
            sunday := pflag headers row "主日"
            prayer := pflag headers row "禱告"
            smallGroup := pflag headers row "小排"
            morningRevival := pflag headers row "晨興" }))
      else Option.none
    else Option.none

/-- Reverse chronological order on dated files (the loader sorts
`file_info` newest first). -/
def fileDateGe (a b : Date × RawFile) : Prop := b.1.key ≤ a.1.key

instance : DecidableRel fileDateGe := fun _ _ => Nat.decLe _ _

/-- The `weeks` most recent personal files by filename date: files with
an unparseable date are dropped, the rest are sorted newest first and
the first `weeks` of them kept. -/
def recentPersonalFiles (files : List RawFile) (weeks : Nat) : List (Date × RawFile) :=
  let fileInfo := files.filterMap (fun f =>
    match parse_week_end_date_from_filename f.path with
    | some dt => some (dt, f)
    | Option.none => Option.none)
  (fileInfo.insertionSort fileDateGe).take weeks

/-- `df_total`: the concatenation of the readable recent personal
files' normalized rows. -/
def personalTable (files : List RawFile) (weeks : Nat) : List PRow :=
  ((recentPersonalFiles files weeks).filterMap (fun p => readPersonalFile p.1 p.2)).flatten

/-- `groupby('姓名')[...].transform('sum').sum(axis=1)` for one name:
the total of all attendance flags over every row carrying this name. -/
def personSum (rows : List PRow) (nm : Cell) : Int :=
  ((rows.filter (fun r => r.name = nm)).map PRow.flagTotal).sum

/-- Python-style lexicographic string comparison by code point. -/
def charListLe : List Char → List Char → Bool
  | [], _ => true
  | _ :: _, [] => false
  | a :: as, b :: bs => if a = b then charListLe as bs else decide (a < b)

/-- A lexicographic-style total order on cells used to model the
`區別` tie-break of the final personal sort.  Uniform string columns
are ordered exactly as `pandas` orders them (code-point order); the
relative order of cells of different kinds is irrelevant to the source
(on genuinely mixed columns `pandas` raises instead of producing an
order). -/
def cellLe (a b : Cell) : Prop :=
  match a, b with
  | .str s, .str t => charListLe s.data t.data = true
  | .str _, _ => True
  | .num _, .str _ => False
  | .num m, .num n => m ≤ n
  | .num _, .empty => True
  | .empty, .empty => True
  | .empty, _ => False

instance : DecidableRel cellLe := fun a b => by
  unfold cellLe
  cases a <;> cases b <;> infer_instance

/-- The final sort key of the personal table:
`sort_values(['日期', '區別'], ascending=[False, True])`. -/
def pRowLe (a b : PRow) : Prop :=
  if a.date.key = b.date.key then cellLe a.district b.district
  else b.date.key < a.date.key

instance : DecidableRel pRowLe := fun a b => by
  unfold pRowLe
  infer_instance

/-- `_load_filtered_raw_personal_data`: take the `weeks` most recent
personal files by filename date (`None` when no file matches or none
has a parseable date), normalize the readable ones (`None` when every
recent file fails), concatenate, drop every row whose person's total
attendance over the whole retained table is not positive, and sort by
date descending then group label ascending. -/
def _load_filtered_raw_personal_data (files : List RawFile) (weeks : Nat) :
    Option (List PRow) :=
  if files.isEmpty then Option.none
  else
    let recentFiles := recentPersonalFiles files weeks
    if recentFiles.isEmpty then Option.none
    else
      let allData := recentFiles.filterMap (fun p => readPersonalFile p.1 p.2)
      if allData.isEmpty then Option.none
      else
        let dfTotal := allData.flatten
        let dfFiltered := dfTotal.filter (fun r =>
          decide (r.name ≠ Cell.empty) && decide (0 < personSum dfTotal r.name))
        some (dfFiltered.insertionSort pRowLe)

/-! ## RAG context cache (`update_global_rag_context`) -/

/-- `update_global_rag_context`: run the context builder inside
`try/except`; on success the cache (`GLOBAL_RAG_CONTEXT`) becomes the
new text, on any exception (`Except.error`) the assignment is never
reached, the handler only prints, and the previous cache value stays.
Totality of this function is the model of "the failure does not
propagate out of the call". -/
def update_global_rag_context (prev : String) (build : Except String String) : String :=
  match build with
  | .ok newContext => newContext
  | .error _ => prev

/-! ## The date pattern as the specification words it -/

/-- Modelled from the spec claim's wording, for comparison with the
code's regex: a date pattern of exactly "four digits, hyphen, two
digits, hyphen, two digits" anchored at the start of `cs`. -/
def strictPatternAt (cs : List Char) : Bool :=
  match cs with
  | c1 :: c2 :: c3 :: c4 :: h1 :: m1 :: m2 :: h2 :: d1 :: d2 :: _ =>
    c1.isDigit && c2.isDigit && c3.isDigit && c4.isDigit && h1 = '-'
      && m1.isDigit && m2.isDigit && h2 = '-' && d1.isDigit && d2.isDigit
  | _ => false

/-- Modelled from the spec claim's wording: the filename contains a
date matching "four digits, hyphen, two digits, hyphen, two digits"
somewhere. -/
def claimStrictDateMatch : List Char → Bool
  | [] => false
  | c :: rest => strictPatternAt (c :: rest) || claimStrictDateMatch rest

/-! ## Concrete inputs used by the claim theorems -/

/-- The rows the aggregation keeps before its final sort: every row of
every usable file, aggregate rows removed (the body of
`aggregate_reports` up to `_remove_summary_rows`). -/
def survivingRows (files : List RawFile) : List Row :=
  _remove_summary_rows ((files.filterMap read_single_report).map Frame.rows).flatten

/-- A summary file whose `主日` column holds a negative numeric value
and which lacks the `禱告` column entirely. -/
def c5file : RawFile :=
  ⟨"summary_2025-01-05.xlsx",
   some ⟨["區別", "主日"], [[.str "青年一區", .num (-3)]]⟩⟩

/-- A personal file whose name carries a one-digit month and day. -/
def c8file : RawFile :=
  ⟨"attend_2025-1-5.xlsx",
   some ⟨["區別", "主日"], [[.str "青年一區", .num 3]]⟩⟩

/-- The corpus rows of an aggregation outcome (`[]` when it raises);
evaluation helper for concrete inputs. -/
def corpusOf (files : List RawFile) : List Row :=
  match aggregate_reports files with
  | .ok F => F.rows
  | .error _ => []

/-- Two snapshot files whose names carry the same date. -/
def c2fileA : RawFile :=
  ⟨"a_2025-01-05.xlsx", some ⟨["區別", "主日"], [[.str "青年一區", .num 3]]⟩⟩

/-- Second file of the duplicate-date pair. -/
def c2fileB : RawFile :=
  ⟨"b_2025-01-05.xlsx", some ⟨["區別", "主日"], [[.str "青年一區", .num 4]]⟩⟩

/-- The corpus frame built from the duplicate-date file pair. -/
def c2frame : Frame :=
  ⟨⟨true, false, false, false, false, false, false⟩,
   [⟨.str "青年一區", ⟨2025, 1, 5⟩, some 3, Option.none, Option.none, Option.none,
      Option.none, Option.none, Option.none⟩,
    ⟨.str "青年一區", ⟨2025, 1, 5⟩, some 4, Option.none, Option.none, Option.none,
      Option.none, Option.none, Option.none⟩]⟩

/-- Whether `aggregate_reports` returns normally rather than raising. -/
def aggSucceeds (files : List RawFile) : Bool :=
  match aggregate_reports files with
  | .ok _ => true
  | .error _ => false

/-- A snapshot file whose only row is an aggregate (`總計`) row. -/
def c3file : RawFile :=
  ⟨"sum_2025-01-05.xlsx", some ⟨["區別", "主日"], [[.str "總計", .num 9]]⟩⟩

/-- A file `read_single_report` skips (no date in its name). -/
def c3badfile : RawFile :=
  ⟨"notes.xlsx", some ⟨["區別"], []⟩⟩

/-- A usable snapshot file. -/
def c3okfile : RawFile :=
  ⟨"sum_2025-01-12.xlsx", some ⟨["區別", "主日"], [[.str "青年一區", .num 1]]⟩⟩

/-- Input for the resolution witness. -/
def c4files : List RawFile :=
  [⟨"r_2025-01-05.xlsx", some ⟨["區別", "主日"], [[.str "高中一區", .num 5]]⟩⟩]

/-- Aggregated corpus of `c4files`. -/
def c4frame : Frame :=
  ⟨⟨true, false, false, false, false, false, false⟩,
   [⟨.str "高中一區", ⟨2025, 1, 5⟩, some 5, Option.none, Option.none, Option.none,
      Option.none, Option.none, Option.none⟩]⟩

/-- Input for the rollup-sum witness: one file with two member groups
of `高中大區` and an aggregate row. -/
def c1files : List RawFile :=
  [⟨"r_2025-01-05.xlsx",
    some ⟨["區別", "主日"],
      [[.str "高中一區", .num 5], [.str "高中二區", .num 2], [.str "總計", .num 7]]⟩⟩]

/-- Aggregated corpus of `c1files` (the aggregate row removed). -/
def c1frame : Frame :=
  ⟨⟨true, false, false, false, false, false, false⟩,
   [⟨.str "高中一區", ⟨2025, 1, 5⟩, some 5, Option.none, Option.none, Option.none,
      Option.none, Option.none, Option.none⟩,
    ⟨.str "高中二區", ⟨2025, 1, 5⟩, some 2, Option.none, Option.none, Option.none,
      Option.none, Option.none, Option.none⟩]⟩

/-- The single series entry of the cluster `高中大區` over `c1frame`. -/
def c1ts : TSRow :=
  ⟨⟨2025, 1, 5⟩, some 7, Option.none, Option.none, Option.none, Option.none,
   Option.none, Option.none, 0⟩

/-- Summary input for the recency-window witness. -/
def c6files : List RawFile :=
  [⟨"s_2025-01-05.xlsx", some ⟨["區別", "主日"], [[.str "青年一區", .num 1]]⟩⟩,
   ⟨"s_2025-01-12.xlsx", some ⟨["區別", "主日"], [[.str "青年一區", .num 2]]⟩⟩]

/-- Aggregated corpus of `c6files`. -/
def c6frame : Frame :=
  ⟨⟨true, false, false, false, false, false, false⟩,
   [⟨.str "青年一區", ⟨2025, 1, 5⟩, some 1, Option.none, Option.none, Option.none,
      Option.none, Option.none, Option.none⟩,
    ⟨.str "青年一區", ⟨2025, 1, 12⟩, some 2, Option.none, Option.none, Option.none,
      Option.none, Option.none, Option.none⟩]⟩

/-- The one-week summary window over `c6files`. -/
def c6sumL : List Row :=
  [⟨.str "青年一區", ⟨2025, 1, 12⟩, some 2, Option.none, Option.none, Option.none,
     Option.none, Option.none, Option.none⟩]

/-- Personal files with two distinct dates. -/
def c6pfiles : List RawFile :=
  [⟨"attend_2025-01-05.xlsx",
    some ⟨["姓名", "區別", "主日"], [[.str "甲", .str "A區", .num 1]]⟩⟩,
   ⟨"attend_2025-01-12.xlsx",
    some ⟨["姓名", "區別", "主日"], [[.str "乙", .str "A區", .num 1]]⟩⟩]

/-- The personal table the loader returns for `c6pfiles` (newest
first). -/
def c6perL : List PRow :=
  [⟨⟨2025, 1, 12⟩, .str "乙", .str "A區", 1, 0, 0, 0⟩,
   ⟨⟨2025, 1, 5⟩, .str "甲", .str "A區", 1, 0, 0, 0⟩]

/-- Personal files where two of three share a date. -/
def c6pfiles2 : List RawFile :=
  [⟨"attend_2025-01-05.xlsx",
    some ⟨["姓名", "區別", "主日"], [[.str "甲", .str "A區", .num 1]]⟩⟩,
   ⟨"attend_2025-01-12.xlsx",
    some ⟨["姓名", "區別", "主日"], [[.str "乙", .str "A區", .num 1]]⟩⟩,
   ⟨"attend_2025-01-12b.xlsx",
    some ⟨["姓名", "區別", "主日"], [[.str "丙", .str "A區", .num 1]]⟩⟩]

deriving instance Fintype for ACol

/-- Personal file with one active and one inactive person. -/
def c7files : List RawFile :=
  [⟨"attend_2025-01-05.xlsx",
    some ⟨["姓名", "區別", "主日"],
      [[.str "張三", .str "A區", .num 1], [.str "李四", .str "A區", .num 0]]⟩⟩]

/-- The filtered result over `c7files`: only the active person
remains. -/
def c7L : List PRow := [⟨⟨2025, 1, 5⟩, .str "張三", .str "A區", 1, 0, 0, 0⟩]

/-- Personal files where the same person appears in two groups, active
in one week and inactive (all-zero flags, different group) in the
other. -/
def c10files : List RawFile :=
  [⟨"attend_2025-01-05.xlsx",
    some ⟨["姓名", "區別", "主日"], [[.str "張三", .str "A區", .num 1]]⟩⟩,
   ⟨"attend_2025-01-12.xlsx",
    some ⟨["姓名", "區別", "主日"], [[.str "張三", .str "B區", .num 0]]⟩⟩]

/-- The filtered result over `c10files`: both rows of the person
retained, newest first. -/
def c10L : List PRow :=
  [⟨⟨2025, 1, 12⟩, .str "張三", .str "B區", 0, 0, 0, 0⟩,
   ⟨⟨2025, 1, 5⟩, .str "張三", .str "A區", 1, 0, 0, 0⟩]

/-! ## Order instances for the sort relations -/

instance : IsTotal Row rowDateLe := ⟨fun a b => Nat.le_total a.date.key b.date.key⟩

instance : IsTrans Row rowDateLe := ⟨fun _ _ _ h h' => Nat.le_trans h h'⟩

instance : IsTotal Date dateLe := ⟨fun a b => Nat.le_total a.key b.key⟩

instance : IsTrans Date dateLe := ⟨fun _ _ _ h h' => Nat.le_trans h h'⟩

instance : IsTotal Date dateGe := ⟨fun a b => Nat.le_total b.key a.key⟩

instance : IsTrans Date dateGe := ⟨fun _ _ _ h h' => Nat.le_trans h' h⟩

instance : IsTotal (Date × RawFile) fileDateGe :=
  ⟨fun a b => Nat.le_total b.1.key a.1.key⟩

instance : IsTrans (Date × RawFile) fileDateGe :=
  ⟨fun _ _ _ h h' => Nat.le_trans h' h⟩

theorem charListLe_total : ∀ (as bs : List Char),
    charListLe as bs = true ∨ charListLe bs as = true := by
  intro as
  induction as with
  | nil => intro bs; left; rfl
  | cons a as ih =>
    intro bs
    cases bs with
    | nil => right; rfl
    | cons b bs =>
      simp only [charListLe]
      by_cases hab : a = b
      · subst hab
        rw [if_pos rfl, if_pos rfl]
        exact ih bs
      · rw [if_neg hab, if_neg (Ne.symm hab)]
        rcases lt_or_gt_of_ne hab with h | h
        · left; exact decide_eq_true h
        · right; exact decide_eq_true h

theorem charListLe_trans : ∀ {as bs cs : List Char},
    charListLe as bs = true → charListLe bs cs = true → charListLe as cs = true := by
  intro as
  induction as with
  | nil => intro bs cs _ _; rfl
  | cons a as ih =>
    intro bs cs h1 h2
    cases bs with
    | nil => cases h1
    | cons b bs =>
      cases cs with
      | nil => cases h2
      | cons c cs =>
        simp only [charListLe] at h1 h2 ⊢
        by_cases hab : a = b <;> by_cases hbc : b = c
        · subst hab; subst hbc
          rw [if_pos rfl] at h1 h2 ⊢
          exact ih h1 h2
        · subst hab
          rw [if_pos rfl] at h1
          rw [if_neg hbc] at h2
          rw [if_neg hbc]
          exact h2
        · subst hbc
          rw [if_neg hab] at h1
          rw [if_neg hab]
          exact h1
        · rw [if_neg hab] at h1
          rw [if_neg hbc] at h2
          have hac : a < c := lt_trans (of_decide_eq_true h1) (of_decide_eq_true h2)
          rw [if_neg (ne_of_lt hac)]
          exact decide_eq_true hac

theorem cellLe_total (a b : Cell) : cellLe a b ∨ cellLe b a := by
  cases a <;> cases b <;> simp [cellLe] <;>
    first
    | exact charListLe_total _ _
    | apply le_total

theorem cellLe_trans {a b c : Cell} (h : cellLe a b) (h' : cellLe b c) : cellLe a c := by
  cases a <;> cases b <;> cases c <;> simp_all [cellLe] <;>
    first
    | exact charListLe_trans h h'
    | exact le_trans h h'

instance : IsTotal Cell cellLe := ⟨cellLe_total⟩

instance : IsTrans Cell cellLe := ⟨fun _ _ _ => cellLe_trans⟩

theorem pRowLe_total (a b : PRow) : pRowLe a b ∨ pRowLe b a := by
  unfold pRowLe
  rcases Nat.lt_trichotomy a.date.key b.date.key with h | h | h
  · right; rw [if_neg (by omega)]; omega
  · rw [if_pos h, if_pos h.symm]; exact cellLe_total _ _
  · left; rw [if_neg (by omega)]; omega

theorem pRowLe_trans {a b c : PRow} (h : pRowLe a b) (h' : pRowLe b c) : pRowLe a c := by
  unfold pRowLe at *
  by_cases hab : a.date.key = b.date.key <;> by_cases hbc : b.date.key = c.date.key
  · rw [if_pos hab] at h; rw [if_pos hbc] at h'
    rw [if_pos (hab.trans hbc)]; exact cellLe_trans h h'
  · rw [if_neg hbc] at h'; rw [if_neg (by omega)]; omega
  · rw [if_neg hab] at h; rw [if_neg (by omega)]; omega
  · rw [if_neg hab] at h; rw [if_neg hbc] at h'; rw [if_neg (by omega)]; omega

instance : IsTotal PRow pRowLe := ⟨pRowLe_total⟩

instance : IsTrans PRow pRowLe := ⟨fun _ _ _ => pRowLe_trans⟩

/-- `pRowLe` is at least as strong as reverse chronological order. -/
theorem pRowLe_imp_dateGe {a b : PRow} (h : pRowLe a b) : dateGe a.date b.date := by
  unfold pRowLe at h
  unfold dateGe
  by_cases hab : a.date.key = b.date.key
  · omega
  · rw [if_neg hab] at h; omega

/-! ## Shared structural lemmas about the corpus -/

theorem aggregate_ok_rows {files : List RawFile} {F : Frame}
    (hF : aggregate_reports files = .ok F) :
    F.rows = (survivingRows files).insertionSort rowDateLe := by
  unfold aggregate_reports at hF
  split at hF
  · exact absurd hF (by simp)
  · simp only at hF
    split at hF
    · exact absurd hF (by simp)
    · cases hF
      rfl

theorem aggregate_rows_perm {files : List RawFile} {F : Frame}
    (hF : aggregate_reports files = .ok F) :
    F.rows.Perm (survivingRows files) := by
  rw [aggregate_ok_rows hF]
  exact List.perm_insertionSort _ _

theorem mem_aggregate_rows {files : List RawFile} {F : Frame} {r : Row}
    (hF : aggregate_reports files = .ok F) :
    r ∈ F.rows ↔
      (∃ fr ∈ files.filterMap read_single_report, r ∈ fr.rows) ∧
        _is_summary_text r.group = false := by
  rw [aggregate_ok_rows hF]
  unfold survivingRows _remove_summary_rows
  simp [List.mem_insertionSort, List.mem_filter]
  tauto

/-- The corpus returned by `aggregate_reports` carries no aggregate
("total") rows. -/
theorem corpus_no_summary {files : List RawFile} {F : Frame}
    (hF : aggregate_reports files = .ok F) :
    ∀ r ∈ F.rows, _is_summary_text r.group = false :=
  fun _ hr => ((mem_aggregate_rows hF).mp hr).2

/-! ## C9: rebuild failure retains the cached context -/

/-- C9: if building the new context during a rebuild fails
(`Except.error`), the cached context snapshot keeps its previous value
unchanged, and the rebuild call still returns normally (the function is
total: the failure does not escape); on success the cache becomes the
newly built text. -/
theorem C9_rebuild_failure_retains_snapshot :
    (∀ (prev err : String), update_global_rag_context prev (.error err) = prev) ∧
    (∀ (prev newContext : String),
      update_global_rag_context prev (.ok newContext) = newContext) :=
  ⟨fun _ _ => rfl, fun _ _ => rfl⟩

/-! ## C5: metric-column coercion in single-report ingestion -/

/-- C5 counterexample: ingesting `c5file` produces a table whose `禱告`
column is absent rather than synthesized as all-zero, and whose `主日`
value is the negative number `-3` rather than a non-negative integer —
both contradicting the claim that every configured metric column is
coerced to a non-negative integer and that absent columns appear as
all-zero columns. -/
theorem C5_counterexample :
    (read_single_report c5file).map (fun F => (F.cols.prayer, F.rows.map Row.sunday))
        = some (false, [some (-3)])
      ∧ ((-3 : Int) < 0) := by
  exact ⟨by decide, by decide⟩

/-- C5 (amended): for every ingested snapshot file, the normalized
table carries exactly the configured metric columns present in the
file's (whitespace-stripped) headers — absent columns are omitted, not
synthesized as zero; each present column is coerced numerically, with
non-numeric or missing cell values becoming zero (negative or otherwise
arbitrary numeric cell values are kept as they are); rows are preserved
one for one. -/
theorem C5_metric_coercion :
    ∀ (f : RawFile) (tbl : RawTable) (F : Frame) (m : Metric),
      f.content = some tbl →
      read_single_report f = some F →
      ((F.cols.has m = (_clean_table_headers tbl.headers).contains m.colName)
       ∧ (∃ dt, parse_week_end_date_from_filename f.path = some dt ∧
            F.rows = tbl.rows.map (mkRow (_clean_table_headers tbl.headers) dt))
       ∧ (∀ (headers : List String) (dt : Date) (row : List Cell),
            (mkRow headers dt row).metric m =
              if headers.contains m.colName then
                some (coerceNumeric (getCol headers row m.colName))
              else Option.none)
       ∧ (∀ s, coerceNumeric (.str s) = 0)
       ∧ coerceNumeric .empty = 0) := by
  intro f tbl F m hc hr
  unfold read_single_report at hr
  rcases hp : parse_week_end_date_from_filename f.path with _ | dt
  · rw [hp] at hr; cases hr
  · rw [hp, hc] at hr
    dsimp only at hr
    by_cases hh : (_clean_table_headers tbl.headers).contains "區別" = true
    · rw [if_pos hh] at hr
      cases hr
      refine ⟨?_, ⟨dt, rfl, rfl⟩, ?_, fun _ => rfl, rfl⟩
      · cases m <;> rfl
      · intro headers dt' row
        cases m <;> rfl
    · rw [if_neg hh] at hr; cases hr

/-- C5 witness: the amended theorem applied to a concrete well-formed
file. -/
theorem C5_metric_coercion_witness :
    (mkRow ["區別", "主日"] ⟨2025, 1, 5⟩ [Cell.str "青年一區", Cell.str "x"]).metric .sunday
      = some 0 := by
  have h := C5_metric_coercion c5file ⟨["區別", "主日"], [[.str "青年一區", .num (-3)]]⟩
    { cols := mkColSet ["區別", "主日"],
      rows := [mkRow ["區別", "主日"] ⟨2025, 1, 5⟩ [.str "青年一區", .num (-3)]] }
    .sunday rfl (by decide)
  rw [h.2.2.1 ["區別", "主日"] ⟨2025, 1, 5⟩ [Cell.str "青年一區", Cell.str "x"]]
  decide

/-! ## C8: filename date extraction -/

/-- Leftmost matches of the date regex are unique. -/
theorem leftmost_match_unique {cs : List Char} {i j : Nat}
    {t u : Nat × Nat × Nat}
    (hi : matchDateHere (cs.drop i) = some t)
    (hmi : ∀ k < i, matchDateHere (cs.drop k) = Option.none)
    (hj : matchDateHere (cs.drop j) = some u)
    (hmj : ∀ k < j, matchDateHere (cs.drop k) = Option.none) :
    i = j ∧ t = u := by
  rcases Nat.lt_trichotomy i j with h | h | h
  · exact absurd hi (by rw [hmj i h]; simp)
  · subst h
    rw [hi] at hj
    exact ⟨rfl, Option.some.inj hj⟩
  · exact absurd hj (by rw [hmi j h]; simp)

/-- `searchDate` (the model of `re.search`) fails exactly when the
anchored match fails at every position. -/
theorem searchDate_eq_none_iff (cs : List Char) :
    searchDate cs = Option.none ↔
      ∀ i, matchDateHere (cs.drop i) = Option.none := by
  induction cs with
  | nil =>
    simp only [searchDate, List.drop_nil, true_iff]
    intro i
    rfl
  | cons c rest ih =>
    simp only [searchDate]
    cases h : matchDateHere (c :: rest) with
    | some r =>
      simp only [reduceCtorEq, false_iff, not_forall]
      exact ⟨0, by simp [h]⟩
    | none =>
      rw [ih]
      constructor
      · intro hall i
        cases i with
        | zero => simpa using h
        | succ j => simpa using hall j
      · intro hall j
        simpa using hall (j + 1)

/-- `searchDate` succeeds with `t` exactly when `t` is the match at the
leftmost matching position. -/
theorem searchDate_eq_some_iff (cs : List Char) (t : Nat × Nat × Nat) :
    searchDate cs = some t ↔
      ∃ i, matchDateHere (cs.drop i) = some t ∧
        ∀ j < i, matchDateHere (cs.drop j) = Option.none := by
  induction cs with
  | nil =>
    simp only [searchDate, reduceCtorEq, false_iff, not_exists, not_and, List.drop_nil]
    intro i h
    cases h
  | cons c rest ih =>
    simp only [searchDate]
    cases h : matchDateHere (c :: rest) with
    | some r =>
      constructor
      · intro hr
        refine ⟨0, by simpa [h] using hr, ?_⟩
        intro j hj
        exact absurd hj (Nat.not_lt_zero j)
      · rintro ⟨i, hi, hmin⟩
        cases i with
        | zero =>
          rw [List.drop_zero, h] at hi
          simpa using hi
        | succ j =>
          exact absurd (hmin 0 (Nat.succ_pos j)) (by simp [h])
    | none =>
      rw [ih]
      constructor
      · rintro ⟨i, hi, hmin⟩
        refine ⟨i + 1, by simpa using hi, ?_⟩
        intro j hj
        cases j with
        | zero => simpa using h
        | succ k => simpa using hmin k (by omega)
      · rintro ⟨i, hi, hmin⟩
        cases i with
        | zero =>
          rw [List.drop_zero] at hi
          rw [h] at hi
          cases hi
        | succ k =>
          exact ⟨k, by simpa using hi, fun j hj => by simpa using hmin (j + 1) (by omega)⟩

/-- C8 (amended): ingestion skips a file for date reasons exactly when
the basename of its path contains no match of the pattern "four digits,
hyphen, one or two digits, hyphen, one or two digits", or the leftmost
greedy such match is not a valid calendar date; otherwise the file is
not skipped for date reasons and every row produced from it carries the
date of that leftmost match.  (The code's regex accepts one-digit
months and days, which the original claim's "two digits" pattern does
not.) -/
theorem C8_filename_date_skip :
    ∀ (fname : String),
      ((parse_week_end_date_from_filename fname = Option.none ↔
         (∀ i, matchDateHere ((basename fname.data).drop i) = Option.none) ∨
         (∃ i t, matchDateHere ((basename fname.data).drop i) = some t ∧
            (∀ j < i, matchDateHere ((basename fname.data).drop j) = Option.none) ∧
            mkValidDate t.1 t.2.1 t.2.2 = Option.none))
       ∧ (∀ d, parse_week_end_date_from_filename fname = some d ↔
           ∃ i t, matchDateHere ((basename fname.data).drop i) = some t ∧
             (∀ j < i, matchDateHere ((basename fname.data).drop j) = Option.none) ∧
             mkValidDate t.1 t.2.1 t.2.2 = some d)
       ∧ (∀ content, parse_week_end_date_from_filename fname = Option.none →
            read_single_report ⟨fname, content⟩ = Option.none)
       ∧ (∀ d tbl F, parse_week_end_date_from_filename fname = some d →
            read_single_report ⟨fname, some tbl⟩ = some F →
            ∀ r ∈ F.rows, r.date = d)) := by
  intro fname
  refine ⟨?_, ?_, ?_, ?_⟩
  · unfold parse_week_end_date_from_filename
    cases hs : searchDate (basename fname.data) with
    | none =>
      constructor
      · intro _
        exact Or.inl ((searchDate_eq_none_iff _).mp hs)
      · intro _
        rfl
    | some t0 =>
      obtain ⟨y, mo, dy⟩ := t0
      obtain ⟨i0, hi0, hmin0⟩ := (searchDate_eq_some_iff _ _).mp hs
      constructor
      · intro hv
        exact Or.inr ⟨i0, (y, mo, dy), hi0, hmin0, hv⟩
      · rintro (hall | ⟨i, t, hi, hmin, hv⟩)
        · exact absurd hi0 (by rw [hall i0]; simp)
        · obtain ⟨-, ht⟩ := leftmost_match_unique hi0 hmin0 hi hmin
          rw [← ht] at hv
          exact hv
  · intro d
    unfold parse_week_end_date_from_filename
    cases hs : searchDate (basename fname.data) with
    | none =>
      constructor
      · intro hv
        cases hv
      · rintro ⟨i, t, hi, hmin, hv⟩
        exact absurd hi (by rw [(searchDate_eq_none_iff _).mp hs i]; simp)
    | some t0 =>
      obtain ⟨y, mo, dy⟩ := t0
      obtain ⟨i0, hi0, hmin0⟩ := (searchDate_eq_some_iff _ _).mp hs
      constructor
      · intro hv
        exact ⟨i0, (y, mo, dy), hi0, hmin0, hv⟩
      · rintro ⟨i, t, hi, hmin, hv⟩
        obtain ⟨-, ht⟩ := leftmost_match_unique hi0 hmin0 hi hmin
        rw [← ht] at hv
        exact hv
  · intro content hp
    unfold read_single_report
    rw [hp]
  · intro d tbl F hp hr r hrmem
    unfold read_single_report at hr
    rw [hp] at hr
    simp only at hr
    by_cases hh : (_clean_table_headers tbl.headers).contains "區別" = true
    · rw [if_pos hh] at hr
      cases hr
      obtain ⟨raw, -, hraw⟩ := List.mem_map.mp hrmem
      rw [← hraw]
      rfl
    · rw [if_neg hh] at hr; cases hr

/-- C8 witness: the amended theorem at a filename whose leftmost
pattern match is not a valid calendar date (month 13); the file is
skipped. -/
theorem C8_filename_date_skip_witness :
    parse_week_end_date_from_filename "attend_2025-13-40.xlsx" = Option.none :=
  (C8_filename_date_skip "attend_2025-13-40.xlsx").1.mpr
    (Or.inr ⟨7, (2025, 13, 40), by decide, by decide, by decide⟩)

/-- C8 counterexample: `attend_2025-1-5.xlsx` contains no date matching
the claimed pattern "four digits, hyphen, two digits, hyphen, two
digits", yet the file is not skipped: its date parses (the code accepts
one- or two-digit months and days) and ingestion produces rows.  This
contradicts "ingestion skips the file exactly when the filename
contains no date matching the pattern of four digits, hyphen, two
digits, hyphen, two digits". -/
theorem C8_counterexample :
    claimStrictDateMatch "attend_2025-1-5.xlsx".data = false
      ∧ parse_week_end_date_from_filename "attend_2025-1-5.xlsx" = some ⟨2025, 1, 5⟩
      ∧ (read_single_report c8file).isSome = true := by
  exact ⟨by decide, by decide, by decide⟩

/-! ## C2: corpus key multiplicity -/

/-- C2 counterexample: aggregating two files whose names carry the same
date yields a corpus with two rows for the key
(`青年一區`, 2025-01-05) — the aggregation never deduplicates, so the
claimed at-most-one-row-per-key invariant fails for this input file
set. -/
theorem C2_counterexample :
    (corpusOf [c2fileA, c2fileB]).countP
        (fun r => decide (r.group = Cell.str "青年一區" ∧ r.date = (⟨2025, 1, 5⟩ : Date)))
      = 2 := by
  decide

/-- C2 (amended): the corpus returned by `aggregate_reports` contains
exactly the non-aggregate rows of the usable files, each input row
contributing once and nothing being merged or deduplicated; hence it
holds at most one row per (group name, week-end date) key exactly when
no two surviving input rows share that key. -/
theorem C2_corpus_key_multiplicity :
    ∀ (files : List RawFile) (F : Frame),
      aggregate_reports files = .ok F →
      (F.rows.Perm (survivingRows files)
       ∧ ∀ (g : Cell) (d : Date),
           F.rows.countP (fun r => decide (r.group = g ∧ r.date = d))
             = (survivingRows files).countP (fun r => decide (r.group = g ∧ r.date = d))) := by
  intro files F hF
  refine ⟨aggregate_rows_perm hF, ?_⟩
  intro g d
  exact (aggregate_rows_perm hF).countP_eq _

/-- C2 witness: the amended theorem applied to the concrete
duplicate-date aggregation. -/
theorem C2_corpus_key_multiplicity_witness :
    c2frame.rows.countP
        (fun r => decide (r.group = Cell.str "青年一區" ∧ r.date = (⟨2025, 1, 5⟩ : Date)))
      = (survivingRows [c2fileA, c2fileB]).countP
          (fun r => decide (r.group = Cell.str "青年一區" ∧ r.date = (⟨2025, 1, 5⟩ : Date))) :=
  (C2_corpus_key_multiplicity [c2fileA, c2fileB] c2frame rfl).2
    (Cell.str "青年一區") ⟨2025, 1, 5⟩

/-! ## C3: aggregation failure modes -/

/-- C3 counterexample: a usable file whose rows are all aggregate rows
leaves zero rows after aggregate-row removal, yet `aggregate_reports`
returns normally with an empty corpus instead of raising — the claim
that zero surviving rows is a hard error fails. -/
theorem C3_counterexample :
    aggSucceeds [c3file] = true ∧ corpusOf [c3file] = [] := by
  exact ⟨by decide, by decide⟩

/-- C3 (amended): `aggregate_reports` raises exactly when the snapshot
directory yields zero files or zero usable files; when usable files
exist but zero rows survive aggregate-row removal it returns an empty
corpus without raising; and a defective file never makes the whole
aggregation fail — aggregation with the defective file present equals
aggregation without it. -/
theorem C3_aggregation_failure_modes :
    (∀ files : List RawFile,
       (aggSucceeds files = false ↔
         files = [] ∨ files.filterMap read_single_report = []))
    ∧ (∀ (f : RawFile) (fs : List RawFile),
         read_single_report f = Option.none → fs ≠ [] →
         aggregate_reports (f :: fs) = aggregate_reports fs) := by
  constructor
  · intro files
    unfold aggSucceeds aggregate_reports
    by_cases h1 : files.isEmpty = true
    · simp [h1, List.isEmpty_iff.mp h1]
    · by_cases h2 : (files.filterMap read_single_report).isEmpty = true
      · simp [h1, h2, List.isEmpty_iff.mp h2]
      · simp only [h1, h2, Bool.false_eq_true, if_false, reduceCtorEq, false_iff, not_or]
        exact ⟨fun h => h1 (by simp [h]), fun h => h2 (by simp [h])⟩
  · intro f fs hf hfs
    have hfm : (f :: fs).filterMap read_single_report = fs.filterMap read_single_report := by
      simp [List.filterMap_cons, hf]
    have h2 : fs.isEmpty = false := by
      cases fs with
      | nil => exact absurd rfl hfs
      | cons a as => rfl
    unfold aggregate_reports
    rw [hfm, h2]
    rfl

/-- C3 witness: the amended theorem's skip-isolation applied to a
concrete defective file alongside a usable one. -/
theorem C3_aggregation_failure_modes_witness :
    aggregate_reports [c3badfile, c3okfile] = aggregate_reports [c3okfile] :=
  C3_aggregation_failure_modes.2 c3badfile [c3okfile] (by decide) (by decide)

/-! ## C4: the three resolution modes -/

/-- C4: over an aggregated corpus, name resolution uses exactly one of
three modes — the reserved `總計` sentinel selects every non-aggregate
row of the corpus; a name present in the rollup configuration selects
exactly the rows whose group name is a member of that cluster; any
other name selects exactly the rows whose group name equals it — and a
name matching no rows yields an empty series and "nothing to render"
without raising. -/
theorem C4_resolution_modes :
    ∀ (files : List RawFile) (F : Frame) (name : String),
      aggregate_reports files = .ok F →
      ((name = "總計" →
          ∀ r : Row, r ∈ resolveRegionRows F name ↔
            r ∈ F.rows ∧ _is_summary_text r.group = false)
       ∧ (∀ mems, REGION_MAPPING.lookup name = some mems →
            ∀ r : Row, r ∈ resolveRegionRows F name ↔
              r ∈ F.rows ∧ cellIsin r.group mems = true)
       ∧ (name ≠ "總計" → REGION_MAPPING.lookup name = Option.none →
            ∀ r : Row, r ∈ resolveRegionRows F name ↔
              r ∈ F.rows ∧ cellEqStr r.group name = true)
       ∧ (resolveRegionRows F name = [] →
            build_region_timeseries F name = [] ∧
            generate_region_charts F name = Option.none)) := by
  intro files F name hF
  refine ⟨?_, ?_, ?_, ?_⟩
  · intro hname r
    subst hname
    rw [resolveRegionRows, if_pos rfl]
    exact ⟨fun hr => ⟨hr, corpus_no_summary hF r hr⟩, fun h => h.1⟩
  · intro mems hmem r
    have hne : ¬ name = "總計" := by
      intro h
      subst h
      rw [show REGION_MAPPING.lookup "總計" = (Option.none : Option (List String)) from rfl]
        at hmem
      cases hmem
    rw [resolveRegionRows, if_neg hne, hmem]
    exact List.mem_filter
  · intro hne hnone r
    rw [resolveRegionRows, if_neg hne, hnone]
    exact List.mem_filter
  · intro hempty
    have hb : build_region_timeseries F name = [] := by
      unfold build_region_timeseries
      rw [hempty]
      rfl
    refine ⟨hb, ?_⟩
    unfold generate_region_charts
    rw [hb]
    rfl

/-- C4 witness: cluster-mode resolution applied to a concrete corpus
row. -/
theorem C4_resolution_modes_witness :
    (⟨.str "高中一區", ⟨2025, 1, 5⟩, some 5, Option.none, Option.none, Option.none,
       Option.none, Option.none, Option.none⟩ : Row) ∈
      resolveRegionRows c4frame "高中大區" :=
  ((C4_resolution_modes c4files c4frame "高中大區" rfl).2.1
      ["高中一區", "高中二區"] (by decide) _).mpr ⟨by decide, by decide⟩

/-! ## C1: cluster time series sum the member groups' rows -/

/-- The metric values of a grouped time-series entry. -/
theorem tsEntry_metric (cols : ColSet) (rows : List Row) (d : Date) (m : Metric) :
    (tsEntry cols rows d).metric m =
      if cols.has m then some (sumMetric (rows.filter (fun r => r.date = d)) m)
      else Option.none := by
  cases m <;> rfl

/-- C1: for every cluster name of the rollup configuration and every
week-end date, each raw metric value of the cluster's time series
equals the sum of that metric over the corpus rows whose group name is
a member of the cluster and whose week-end date is that date — with
aggregate rows excluded and each such corpus row counted exactly once —
and every date carrying a member row appears in the series. -/
theorem C1_rollup_sum :
    ∀ (files : List RawFile) (F : Frame) (name : String) (mems : List String)
      (d : Date) (m : Metric),
      aggregate_reports files = .ok F →
      REGION_MAPPING.lookup name = some mems →
      ((∀ t ∈ build_region_timeseries F name, t.date = d → F.cols.has m = true →
          t.metric m = some (((F.rows.filter (fun r =>
              cellIsin r.group mems && !_is_summary_text r.group && decide (r.date = d))).map
                (fun r => (r.metric m).getD 0)).sum))
       ∧ ((∃ r ∈ F.rows, cellIsin r.group mems = true ∧ r.date = d) →
            ∃ t ∈ build_region_timeseries F name, t.date = d)) := by
  intro files F name mems d m hF hmem
  have hne : ¬ name = "總計" := by
    intro h
    subst h
    rw [show REGION_MAPPING.lookup "總計" = (Option.none : Option (List String)) from rfl]
      at hmem
    cases hmem
  have hres : resolveRegionRows F name = F.rows.filter (fun r => cellIsin r.group mems) := by
    rw [resolveRegionRows, if_neg hne, hmem]
  have hfilter : (resolveRegionRows F name).filter (fun r => r.date = d)
      = F.rows.filter (fun r =>
          cellIsin r.group mems && !_is_summary_text r.group && decide (r.date = d)) := by
    rw [hres, List.filter_filter]
    apply List.filter_congr
    intro r hr
    rw [corpus_no_summary hF r hr]
    cases cellIsin r.group mems <;> cases decide (r.date = d) <;> rfl
  have hbuild : build_region_timeseries F name =
      if (resolveRegionRows F name).isEmpty then []
      else (distinctDatesAsc (resolveRegionRows F name)).map
        (tsEntry F.cols (resolveRegionRows F name)) := rfl
  constructor
  · intro t ht htd hcols
    rw [hbuild] at ht
    by_cases he : (resolveRegionRows F name).isEmpty = true
    · rw [if_pos he] at ht
      cases ht
    · rw [if_neg he] at ht
      obtain ⟨d', hd', rfl⟩ := List.mem_map.mp ht
      have hdd : d' = d := htd
      subst hdd
      rw [tsEntry_metric, if_pos hcols, hfilter]
      rfl
  · rintro ⟨r, hr, hin, hdate⟩
    have hrregion : r ∈ resolveRegionRows F name := by
      rw [hres]
      exact List.mem_filter.mpr ⟨hr, hin⟩
    have hne2 : (resolveRegionRows F name).isEmpty = false := by
      cases h : resolveRegionRows F name with
      | nil => rw [h] at hrregion; cases hrregion
      | cons a as => rfl
    have hd : d ∈ distinctDatesAsc (resolveRegionRows F name) := by
      unfold distinctDatesAsc
      rw [List.mem_insertionSort, List.mem_dedup]
      exact List.mem_map.mpr ⟨r, hrregion, hdate⟩
    refine ⟨tsEntry F.cols (resolveRegionRows F name) d, ?_, rfl⟩
    rw [hbuild, hne2]
    simp only [Bool.false_eq_true, if_false]
    exact List.mem_map.mpr ⟨d, hd, rfl⟩

/-- C1 witness: the rollup-sum theorem at the concrete corpus; the
cluster's `主日` value is 5 + 2 = 7, the aggregate row not counted. -/
theorem C1_rollup_sum_witness :
    (build_region_timeseries c1frame "高中大區").head? = some c1ts
      ∧ c1ts.metric .sunday = some 7 := by
  have h := (C1_rollup_sum c1files c1frame "高中大區" ["高中一區", "高中二區"]
      ⟨2025, 1, 5⟩ .sunday rfl (by decide)).1 c1ts (by decide) (by decide) (by decide)
  refine ⟨by decide, ?_⟩
  rw [h]
  decide

/-! ## Characterizations of the two recency loaders -/

/-- What the summary recency loader returns on a usable, non-empty
corpus. -/
theorem load_recent_summary_eq {files : List RawFile} {weeks : Nat} {F : Frame}
    (hF : aggregate_reports files = .ok F) (hne : F.rows.isEmpty = false) :
    _load_recent_summary_data files weeks =
      some ((F.rows.filter (fun r =>
        (((F.rows.map Row.date).dedup.insertionSort dateGe).take weeks).contains r.date)).insertionSort
          rowDateLe) := by
  unfold _load_recent_summary_data
  rw [hF]
  dsimp only
  rw [hne]
  rfl

/-- What the personal loader returns when it succeeds: the concatenated
table filtered by positive per-name attendance totals, sorted by date
descending then group label ascending. -/
theorem load_personal_eq {pfiles : List RawFile} {weeks : Nat} {L : List PRow}
    (h : _load_filtered_raw_personal_data pfiles weeks = some L) :
    L = ((personalTable pfiles weeks).filter (fun r =>
          decide (r.name ≠ Cell.empty) &&
            decide (0 < personSum (personalTable pfiles weeks) r.name))).insertionSort
        pRowLe := by
  unfold _load_filtered_raw_personal_data at h
  by_cases h1 : pfiles.isEmpty = true
  · rw [if_pos h1] at h; cases h
  · rw [if_neg h1] at h
    dsimp only at h
    by_cases h2 : (recentPersonalFiles pfiles weeks).isEmpty = true
    · rw [if_pos h2] at h; cases h
    · rw [if_neg h2] at h
      by_cases h3 : ((recentPersonalFiles pfiles weeks).filterMap
          (fun p => readPersonalFile p.1 p.2)).isEmpty = true
      · rw [if_pos h3] at h; cases h
      · rw [if_neg h3] at h
        exact (Option.some.inj h).symm

/-- Every row of one normalized personal file carries the file's
parsed date. -/
theorem readPersonalFile_date {dt : Date} {f : RawFile} {rows : List PRow} {r : PRow}
    (hread : readPersonalFile dt f = some rows) (hr : r ∈ rows) :
    r.date = dt := by
  unfold readPersonalFile at hread
  cases hc : f.content with
  | none => rw [hc] at hread; cases hread
  | some tbl =>
    rw [hc] at hread
    dsimp only at hread
    by_cases hn : (_clean_table_headers tbl.headers).contains "姓名" = true
    · rw [if_pos hn] at hread
      by_cases hq : (_clean_table_headers tbl.headers).contains "區別" = true
      · rw [if_pos hq] at hread
        cases hread
        obtain ⟨raw, -, hraw⟩ := List.mem_map.mp hr
        rw [← hraw]
      · rw [if_neg hq] at hread; cases hread
    · rw [if_neg hn] at hread; cases hread

/-- Every row of the concatenated personal table carries the date of
one of the retained recent files. -/
theorem personalTable_dates {pfiles : List RawFile} {weeks : Nat} {r : PRow}
    (hr : r ∈ personalTable pfiles weeks) :
    r.date ∈ (recentPersonalFiles pfiles weeks).map Prod.fst := by
  unfold personalTable at hr
  obtain ⟨rows, hrows, hrmem⟩ := List.mem_flatten.mp hr
  obtain ⟨p, hp, hread⟩ := List.mem_filterMap.mp hrows
  rw [readPersonalFile_date hread hrmem]
  exact List.mem_map.mpr ⟨p, hp, rfl⟩

/-- Membership in the filtered personal result: in the table, named,
and actively attending. -/
theorem mem_personal_result {pfiles : List RawFile} {weeks : Nat} {L : List PRow}
    (h : _load_filtered_raw_personal_data pfiles weeks = some L) {r : PRow} :
    r ∈ L ↔
      r ∈ personalTable pfiles weeks ∧ r.name ≠ Cell.empty ∧
        0 < personSum (personalTable pfiles weeks) r.name := by
  rw [load_personal_eq h, List.mem_insertionSort, List.mem_filter]
  simp only [Bool.and_eq_true, decide_eq_true_eq, and_assoc]

/-! ## C6: the recency window selectors -/

/-- C6 (amended): the summary recency selector retains exactly
`min(N, number of distinct available week-end dates)` distinct dates —
the most recent ones (every excluded available date is no newer than
any retained one) — keeps all corpus rows of the retained dates, and
returns them sorted ascending by date.  The personal selector instead
retains the `N` most recent files by filename date — which can retain
fewer than `min(N, distinct dates)` distinct dates when several files
share a date — and returns its rows sorted descending by date. -/
theorem C6_recency_window :
    (∀ (files : List RawFile) (weeks : Nat) (F : Frame) (L : List Row),
       aggregate_reports files = .ok F →
       _load_recent_summary_data files weeks = some L →
       (List.Sorted rowDateLe L
        ∧ (L.map Row.date).dedup.length = min weeks (F.rows.map Row.date).dedup.length
        ∧ (∀ dd, dd ∈ L.map Row.date → dd ∈ F.rows.map Row.date)
        ∧ (∀ dd dd', dd ∈ F.rows.map Row.date → dd ∉ L.map Row.date →
             dd' ∈ L.map Row.date → dd.key ≤ dd'.key ∧ dd ≠ dd')
        ∧ (∀ r ∈ F.rows, r.date ∈ L.map Row.date → r ∈ L)))
    ∧ (∀ (pfiles : List RawFile) (weeks : Nat) (L : List PRow),
         _load_filtered_raw_personal_data pfiles weeks = some L →
         (List.Sorted (fun a b => dateGe a.date b.date) L
          ∧ ∀ r ∈ L, r.date ∈ (recentPersonalFiles pfiles weeks).map Prod.fst)) := by
  constructor
  · intro files weeks F L hF hL
    have hne : F.rows.isEmpty = false := by
      cases h : F.rows.isEmpty with
      | false => rfl
      | true =>
        exfalso
        unfold _load_recent_summary_data at hL
        rw [hF] at hL
        dsimp only at hL
        rw [h] at hL
        cases hL
    have hL' : L = (F.rows.filter (fun r =>
        (((F.rows.map Row.date).dedup.insertionSort dateGe).take weeks).contains
          r.date)).insertionSort rowDateLe :=
      (Option.some.inj ((load_recent_summary_eq hF hne).symm.trans hL)).symm
    set ds := (F.rows.map Row.date).dedup with hds
    set sortedD := ds.insertionSort dateGe with hsortedDdef
    set recent := sortedD.take weeks with hrecent
    have hmemL : ∀ r : Row, r ∈ L ↔ r ∈ F.rows ∧ r.date ∈ recent := by
      intro r
      rw [hL', List.mem_insertionSort, List.mem_filter]
      exact and_congr_right (fun _ => List.elem_iff)
    have hsubset : ∀ dd, dd ∈ recent → dd ∈ ds := fun dd h =>
      (List.mem_insertionSort _).mp (List.mem_of_mem_take h)
    have hdates : ∀ dd, dd ∈ L.map Row.date ↔ dd ∈ recent := by
      intro dd
      constructor
      · intro hdL
        obtain ⟨r, hrL, rfl⟩ := List.mem_map.mp hdL
        exact ((hmemL r).mp hrL).2
      · intro hdd
        obtain ⟨r, hr, hrd⟩ := List.mem_map.mp (List.mem_dedup.mp (hsubset dd hdd))
        exact List.mem_map.mpr ⟨r, (hmemL r).mpr ⟨hr, by rw [hrd]; exact hdd⟩, hrd⟩
    have hndD : sortedD.Nodup :=
      (List.perm_insertionSort dateGe ds).symm.nodup (List.nodup_dedup _)
    have hndR : recent.Nodup := (List.take_sublist _ _).nodup hndD
    refine ⟨?_, ?_, ?_, ?_, ?_⟩
    · rw [hL']
      exact List.sorted_insertionSort rowDateLe _
    · have htf : (L.map Row.date).toFinset = recent.toFinset := by
        apply Finset.ext
        intro dd
        rw [List.mem_toFinset, List.mem_toFinset]
        exact hdates dd
      calc (L.map Row.date).dedup.length
          = (L.map Row.date).toFinset.card := (List.card_toFinset _).symm
        _ = recent.toFinset.card := by rw [htf]
        _ = recent.length := List.toFinset_card_of_nodup hndR
        _ = min weeks ds.length := by
              rw [hrecent, List.length_take, (List.perm_insertionSort dateGe ds).length_eq]
    · intro dd hdd
      exact List.mem_dedup.mp (hsubset dd ((hdates dd).mp hdd))
    · intro dd dd' hdF hdnL hd'L
      have hdds : dd ∈ sortedD := (List.mem_insertionSort _).mpr (List.mem_dedup.mpr hdF)
      have hdnR : dd ∉ recent := fun h => hdnL ((hdates dd).mpr h)
      have hd'R : dd' ∈ recent := (hdates dd').mp hd'L
      have hsplit : sortedD = recent ++ sortedD.drop weeks :=
        (List.take_append_drop weeks sortedD).symm
      have hdDrop : dd ∈ sortedD.drop weeks := by
        rcases List.mem_append.mp (hsplit ▸ hdds) with h | h
        · exact absurd h hdnR
        · exact h
      have hsortD : List.Sorted dateGe sortedD := List.sorted_insertionSort dateGe ds
      rw [hsplit] at hsortD hndD
      have hge := (List.pairwise_append.mp hsortD).2.2 dd' hd'R dd hdDrop
      have hne' := (List.pairwise_append.mp hndD).2.2 dd' hd'R dd hdDrop
      exact ⟨hge, Ne.symm hne'⟩
    · intro r hr hd
      exact (hmemL r).mpr ⟨hr, (hdates _).mp hd⟩
  · intro pfiles weeks L hL
    constructor
    · rw [load_personal_eq hL]
      exact List.Pairwise.imp (fun h => pRowLe_imp_dateGe h)
        (List.sorted_insertionSort pRowLe _)
    · intro r hr
      exact personalTable_dates ((mem_personal_result hL).mp hr).1

/-- C6 witness: the amended theorem at concrete summary and personal
inputs. -/
theorem C6_recency_window_witness :
    List.Sorted rowDateLe c6sumL ∧
      List.Sorted (fun a b => dateGe a.date b.date) c6perL :=
  ⟨(C6_recency_window.1 c6files 1 c6frame c6sumL rfl (by decide)).1,
   (C6_recency_window.2 c6pfiles 5 c6perL (by decide)).1⟩

/-- C6 counterexample: the personal loader's windowed result for
`c6pfiles` is sorted descending by date (2025-01-12 before
2025-01-05), contradicting "the windowed result is sorted ascending by
date"; and over `c6pfiles2` with window size 2 it retains only one
distinct date although two distinct dates are available
(min(2, 2) = 2), because the window is taken over files rather than
distinct dates — contradicting "retains exactly min(N, number of
distinct available week-end dates) distinct dates". -/
theorem C6_counterexample :
    ((_load_filtered_raw_personal_data c6pfiles 5).map (fun L => L.map PRow.date)
        = some [⟨2025, 1, 12⟩, ⟨2025, 1, 5⟩])
      ∧ ¬ dateLe (⟨2025, 1, 12⟩ : Date) ⟨2025, 1, 5⟩
      ∧ ((_load_filtered_raw_personal_data c6pfiles2 2).map
            (fun L => (L.map PRow.date).dedup.length) = some 1)
      ∧ (c6pfiles2.filterMap
            (fun f => parse_week_end_date_from_filename f.path)).dedup.length = 2 := by
  exact ⟨by decide, by decide, by decide, by decide⟩

/-! ## C7 and C10: the sparse-elimination filter of the personal table -/

/-- A row whose flags are all non-negative has a non-negative flag
total. -/
theorem flagTotal_nonneg {r : PRow} (h : ∀ c : ACol, 0 ≤ r.flag c) :
    0 ≤ r.flagTotal := by
  have h1 := h .sunday
  have h2 := h .prayer
  have h3 := h .smallGroup
  have h4 := h .morningRevival
  simp only [PRow.flag] at h1 h2 h3 h4
  unfold PRow.flagTotal
  omega

/-- With non-negative flags, one nonzero flag of one row of a person
makes the person's total positive. -/
theorem personSum_pos {rows : List PRow} {nm : Cell} {r0 : PRow}
    (hpos : ∀ r ∈ rows, ∀ c : ACol, 0 ≤ r.flag c)
    (hr0 : r0 ∈ rows) (hname : r0.name = nm) (hflag : ∃ c, r0.flag c ≠ 0) :
    0 < personSum rows nm := by
  obtain ⟨c, hc⟩ := hflag
  have hcpos : 0 < r0.flag c := lt_of_le_of_ne (hpos r0 hr0 c) (Ne.symm hc)
  have h0 : 0 < r0.flagTotal := by
    have h1 := hpos r0 hr0 .sunday
    have h2 := hpos r0 hr0 .prayer
    have h3 := hpos r0 hr0 .smallGroup
    have h4 := hpos r0 hr0 .morningRevival
    simp only [PRow.flag] at h1 h2 h3 h4
    unfold PRow.flagTotal
    cases c <;> simp only [PRow.flag] at hcpos <;> omega
  have hmemf : r0 ∈ rows.filter (fun r => r.name = nm) :=
    List.mem_filter.mpr ⟨hr0, by simp [hname]⟩
  have hmem : r0.flagTotal ∈ (rows.filter (fun r => r.name = nm)).map PRow.flagTotal :=
    List.mem_map.mpr ⟨r0, hmemf, rfl⟩
  have hall : ∀ x ∈ (rows.filter (fun r => r.name = nm)).map PRow.flagTotal, (0 : Int) ≤ x := by
    rintro x hx
    obtain ⟨r, hrf, rfl⟩ := List.mem_map.mp hx
    exact flagTotal_nonneg (hpos r (List.mem_filter.mp hrf).1)
  exact lt_of_lt_of_le h0 (List.single_le_sum hall _ hmem)

/-- C7: in the personal table built over the retained recency window
(with attendance flags non-negative, as 0/1 flags are, and for persons
that actually carry a name), a person whose flags sum to zero across
the whole retained window appears in no row of the result, and a
person with at least one nonzero flag appears with every one of their
rows from the retained window. -/
theorem C7_personal_sparse_elimination :
    ∀ (pfiles : List RawFile) (weeks : Nat) (L : List PRow) (nm : Cell),
      _load_filtered_raw_personal_data pfiles weeks = some L →
      (∀ r ∈ personalTable pfiles weeks, ∀ c : ACol, 0 ≤ r.flag c) →
      nm ≠ Cell.empty →
      ((personSum (personalTable pfiles weeks) nm = 0 → ∀ r ∈ L, r.name ≠ nm)
       ∧ ((∃ r0 ∈ personalTable pfiles weeks, r0.name = nm ∧ ∃ c, r0.flag c ≠ 0) →
            ∀ r ∈ personalTable pfiles weeks, r.name = nm → r ∈ L)) := by
  intro pfiles weeks L nm hL hpos hnm
  constructor
  · intro hzero r hr hrname
    have h := (mem_personal_result hL).mp hr
    rw [hrname, hzero] at h
    exact absurd h.2.2 (lt_irrefl 0)
  · rintro ⟨r0, hr0, hr0n, hflag⟩ r hr hrname
    exact (mem_personal_result hL).mpr ⟨hr, by rw [hrname]; exact hnm,
      by rw [hrname]; exact personSum_pos hpos hr0 hr0n hflag⟩

/-- C7 witness: the theorem applied to `c7files`; the active person's
row is retained. -/
theorem C7_personal_sparse_elimination_witness :
    (⟨⟨2025, 1, 5⟩, .str "張三", .str "A區", 1, 0, 0, 0⟩ : PRow) ∈ c7L :=
  (C7_personal_sparse_elimination c7files 5 c7L (.str "張三")
      (by decide) (by decide) (by decide)).2
    ⟨⟨⟨2025, 1, 5⟩, .str "張三", .str "A區", 1, 0, 0, 0⟩, by decide, rfl,
      ⟨.sunday, by decide⟩⟩
    ⟨⟨2025, 1, 5⟩, .str "張三", .str "A區", 1, 0, 0, 0⟩ (by decide) rfl

/-- C10: sparse elimination is decided per person name aggregated over
all groups and all retained weeks — if any row carrying a name has a
nonzero flag (flags non-negative, the name present), then every row
carrying that name is retained, including rows with a different group
label and all-zero flags. -/
theorem C10_name_level_filter :
    ∀ (pfiles : List RawFile) (weeks : Nat) (L : List PRow) (nm : Cell) (r0 r1 : PRow),
      _load_filtered_raw_personal_data pfiles weeks = some L →
      (∀ r ∈ personalTable pfiles weeks, ∀ c : ACol, 0 ≤ r.flag c) →
      nm ≠ Cell.empty →
      r0 ∈ personalTable pfiles weeks → r0.name = nm → (∃ c, r0.flag c ≠ 0) →
      r1 ∈ personalTable pfiles weeks → r1.name = nm →
      r1 ∈ L := by
  intro pfiles weeks L nm r0 r1 hL hpos hnm hr0 hr0n hflag hr1 hr1n
  exact (mem_personal_result hL).mpr ⟨hr1, by rw [hr1n]; exact hnm,
    by rw [hr1n]; exact personSum_pos hpos hr0 hr0n hflag⟩

/-- C10 witness: the all-zero row with a different group label is
retained because the same name has a nonzero flag elsewhere. -/
theorem C10_name_level_filter_witness :
    (⟨⟨2025, 1, 12⟩, .str "張三", .str "B區", 0, 0, 0, 0⟩ : PRow) ∈ c10L :=
  C10_name_level_filter c10files 5 c10L (.str "張三")
    ⟨⟨2025, 1, 5⟩, .str "張三", .str "A區", 1, 0, 0, 0⟩
    ⟨⟨2025, 1, 12⟩, .str "張三", .str "B區", 0, 0, 0, 0⟩
    (by decide) (by decide) (by decide) (by decide) rfl ⟨.sunday, by decide⟩
    (by decide) rfl

end ChartsGenerator
